import Mathlib

/-!
Shallow embedding of the motion-chain resolution and goal-translation layer of
the `motionplan` package (src/unnamed/part_001): frame systems and their
linearization, motion chains, pivot (lowest-common-ancestor) search, PTG
exclusivity checking, geometry partitioning, goal translation to World,
the discretization step-count utility, and the planning result promise.

External collaborators from the `referenceframe` and `spatialmath` packages
(frame lookup, ancestor traceback, subgraph extraction/merge, transform
composition, pose distance) are not part of the provided sources; they are
modelled from the specification, and each such definition says so in its
doc comment.
-/

namespace RDK

/-- Name of the root frame of every frame system (`referenceframe.World`). -/
def World : String := "world"

/-- Kind of a frame.  Modelled from the spec: the dynamic capability test
`movingFrame.(tpspace.PTGProvider)` in `motionChainsFromPlanState` is
represented as a tagged kind on the frame (spec §9: "model as a tagged
variant over frame kinds"). -/
inductive FrameKind where
  | ordinary : FrameKind
  | ptg : FrameKind
deriving DecidableEq, Repr

/-- A frame of the kinematic tree.  Modelled from the spec: a named node with
zero or more scalar degrees of freedom with bounds (`frame.DoF()` is a list of
limits, each a (min, max) pair) and a kind used for the PTG capability test. -/
structure Frame where
  name : String
  dof : List (ℚ × ℚ)
  kind : FrameKind
deriving DecidableEq, Repr

/-- The number of degrees of freedom of a frame, `len(frame.DoF())`. -/
def Frame.dofCount (f : Frame) : Nat := f.dof.length

/-- The root frame: fixed (no degrees of freedom), named `world`. -/
def worldFrame : Frame := ⟨World, [], .ordinary⟩

/-- Errors returned by the embedded functions.  Each constructor corresponds to
one error value produced by the source. -/
inductive MPErr where
  /-- `referenceframe.NewFrameMissingError(name)` -/
  | frameMissing : String → MPErr
  /-- error returned by `fs.TracebackFrame` -/
  | tracebackFailed : String → MPErr
  /-- "solveFrameList was empty" -/
  | emptySolveList : MPErr
  /-- "no path from solve frame to goal frame" -/
  | noPath : MPErr
  /-- "must have at least one motion chain" -/
  | atLeastOneChain : MPErr
  /-- "only one PTG frame can be planned for at a time" -/
  | onlyOnePTG : MPErr
  /-- `errMixedFrameTypes` -/
  | mixedFrameTypes : MPErr
  /-- "frame %s missing from input map" (mapToSlice) -/
  | missingFromInputMap : String → MPErr
  /-- "not enough values in float slice for frame %s" (sliceToMap) -/
  | notEnoughValues : String → MPErr
  /-- error returned by `fs.Transform` -/
  | transformFailed : MPErr
deriving DecidableEq, Repr

/-- A pose.  Modelled from the spec: the code under verification never inspects
pose contents (poses are produced and consumed by the external `spatialmath`
package), so a pose is plain data. -/
structure Pose where
  x : ℚ
  y : ℚ
  z : ℚ
deriving DecidableEq, Repr

/-- A pose together with the name of the frame it is expressed in
(`referenceframe.PoseInFrame`): `parent` is the observer frame. -/
structure PoseInFrame where
  parent : String
  pose : Pose
deriving DecidableEq, Repr

/-- `referenceframe.FrameSystemInputs`: a map from frame name to that frame's
joint values, modelled as an association list observed through `alookup`. -/
abbrev FrameSystemInputs := List (String × List ℚ)

/-- `referenceframe.FrameSystemPoses`: a map from frame name to a pose-in-frame,
modelled as an association list observed through `alookup`. -/
abbrev FrameSystemPoses := List (String × PoseInFrame)

/-- Lookup in an association list used to model a Go map (first matching key). -/
def alookup {α : Type} (m : List (String × α)) (k : String) : Option α :=
  (m.find? (fun p => p.1 == k)).map (·.2)

/-- Go map update `m[k] = v`, modelled as an association-list operation whose
observable behaviour through `alookup` matches map assignment. -/
def mapInsert {α : Type} (m : List (String × α)) (k : String) (v : α) :
    List (String × α) :=
  (k, v) :: m

/-- A kinematic frame system.  Modelled from the spec: a rooted tree of named
frames given by a parent relation, together with the rigid-transform
composition operation `Transform` (external to the sources, represented as an
abstract field). -/
structure FrameSystem where
  frames : List Frame
  parents : List (String × String)
  transform : FrameSystemInputs → PoseInFrame → String → Except MPErr PoseInFrame

/-- `fs.Frame(name)`: lookup of a frame by name; the World frame is always
present.  Returns `none` where the Go method returns nil. -/
def FrameSystem.frame (fs : FrameSystem) (name : String) : Option Frame :=
  if name = World then some worldFrame else fs.frames.find? (fun f => f.name == name)

/-- Name of the parent of the named frame, per the parent relation. -/
def FrameSystem.parentName (fs : FrameSystem) (name : String) : Option String :=
  (fs.parents.find? (fun p => p.1 == name)).map (·.2)

/-- `fs.FrameNames()`: the names of the frames of the system (World excluded). -/
def FrameSystem.frameNames (fs : FrameSystem) : List String :=
  fs.frames.map (·.name)

/-- Fuel-indexed ancestor traceback: walks the parent relation from a frame up
to World.  Modelled from the spec: "ancestor-chain traceback to the root
(World)"; the returned list is leaf-first, ends at World, and includes the
frame itself, matching `fs.TracebackFrame`. -/
def tracebackAux (fs : FrameSystem) : Nat → Frame → Option (List Frame)
  | 0, _ => none
  | fuel + 1, f =>
    if f.name = World then some [f]
    else
      match fs.parentName f.name with
      | none => none
      | some p =>
        match fs.frame p with
        | none => none
        | some pf => (tracebackAux fs fuel pf).map (f :: ·)

/-- `fs.TracebackFrame(frame)`: the ancestor chain of a frame, leaf-first,
World last.  `none` models the error return (frame disconnected from World). -/
def tracebackFrame (fs : FrameSystem) (f : Frame) : Option (List Frame) :=
  tracebackAux fs (fs.frames.length + 1) f

/-- `referenceframe.NewEmptyFrameSystem`: a frame system with no frames but
(implicitly) the World frame. -/
def NewEmptyFrameSystem : FrameSystem :=
  ⟨[], [], fun _ _ _ => .error .transformFailed⟩

/-- `fs.FrameSystemSubset(root)`.  Modelled from the spec: "subgraph extraction
rooted at a frame" — keeps exactly the frames that have `root` on their
ancestor chain (root itself included), restricting the parent relation. -/
def FrameSystemSubset (fs : FrameSystem) (root : Frame) : FrameSystem :=
  let kept := fs.frames.filter fun f =>
    match tracebackFrame fs f with
    | some c => c.contains root
    | none => false
  ⟨kept, fs.parents.filter (fun p => kept.any (fun f => f.name == p.1)), fs.transform⟩

/-- `moving.MergeFrameSystem(movingSubset2, moving.World())`.  Modelled from
the spec: "subgraph merge" — the merged system contains the frames of both
systems. -/
def MergeFrameSystem (fs1 fs2 : FrameSystem) : FrameSystem :=
  ⟨fs1.frames ++ fs2.frames, fs1.parents ++ fs2.parents, fs1.transform⟩

/-- `uniqInPlaceSlice`: deduplicates a slice of frames keeping the first
occurrence of each value, as the in-place compaction in the source does. -/
def uniqInPlaceSlice (s : List Frame) : List Frame :=
  s.foldl (fun acc v => if v ∈ acc then acc else acc ++ [v]) []

/-! ### Step-count utility -/

/-- `CalculateStepCount(seedPos, goalPos, stepSize)`.  The two geometric
quantities — `seedPos.Point().Distance(goalPos.Point())` and the rotation
angle `utils.RadToDeg(OrientationBetween(...).AxisAngles().Theta)` — are
computed by the external `spatialmath` package; modelled from the spec, they
enter here as the rational parameters `mmDist` and `thetaDeg` (the linear
distance in millimeters and the rotation angle in degrees; both are zero for
identical poses, and a pure 100mm translation has `mmDist = 100`,
`thetaDeg = 0`).  The arithmetic (zero step size treated as 1, maximum of the
two ratios, truncation, plus one) is embedded exactly; the Go conversion
`int(nSteps)` truncates toward zero, which on the nonnegative `nSteps` is the
floor. -/
def CalculateStepCount (mmDist thetaDeg stepSize : ℚ) : Int :=
  let s := if stepSize = 0 then 1 else stepSize
  let nSteps := max |mmDist / s| |thetaDeg / s|
  ⌊nSteps⌋ + 1

/-! ### Planning result promise -/

/-- `rrtSolution`: what the background search worker writes into the one-shot
slot — a node sequence together with an optional error. -/
structure rrtSolution (N : Type) where
  steps : List N
  err : Option String

/-- `resultPromise`: either a precomputed node sequence (`steps`, where `none`
models a nil Go slice) or a one-shot asynchronous slot.  The slot is modelled
by its eventual content: `future = some sol` means the background producer
will deliver `sol`; `future = none` means no producer ever writes (a read
blocks forever). -/
structure resultPromise (N : Type) where
  steps : Option (List N)
  future : Option (rrtSolution N)

/-- `resultPromise.result()`.  Returns `some outcome` when the call completes
with that outcome and `none` when the call blocks forever on the slot.  The
slot is read exactly when the Go code executes `<-r.future`, i.e. unless
`r.steps != nil && len(r.steps) > 0`. -/
def resultPromise.result {N : Type} (r : resultPromise N) :
    Option (Except String (List N)) :=
  let readFuture : Option (Except String (List N)) :=
    match r.future with
    | none => none
    | some sol =>
      match sol.err with
      | some e => some (.error e)
      | none => some (.ok sol.steps)
  match r.steps with
  | some l => if l.length > 0 then some (.ok l) else readFuture
  | none => readFuture

/-! ### Linearized frame system -/

/-- `linearizedFrameSystem`: a frame system together with a fixed ordering of
its frames and the concatenation of their degree-of-freedom limits. -/
structure linearizedFrameSystem where
  fs : FrameSystem
  frames : List Frame
  dof : List (ℚ × ℚ)

/-- `newLinearizedFrameSystem(fs)`: fixes the frame ordering by enumerating
`fs.FrameNames()` and looking every name up, failing if a listed name is not
found. -/
def newLinearizedFrameSystem (fs : FrameSystem) : Except MPErr linearizedFrameSystem := do
  let frames ← fs.frameNames.mapM fun n =>
    match fs.frame n with
    | none => Except.error (MPErr.frameMissing n)
    | some f => Except.ok f
  Except.ok ⟨fs, frames, (frames.map (·.dof)).flatten⟩

/-- Recursion underlying `mapToSlice`: walks the fixed frame ordering, skips
zero-DoF frames, errors at the first moving frame missing from the input map,
and concatenates each moving frame's values in order. -/
def mapToSliceAux (inputs : FrameSystemInputs) : List Frame → Except MPErr (List ℚ)
  | [] => .ok []
  | f :: rest =>
    if f.dofCount = 0 then mapToSliceAux inputs rest
    else
      match alookup inputs f.name with
      | none => .error (.missingFromInputMap f.name)
      | some input => (mapToSliceAux inputs rest).map (fun s => input ++ s)

/-- `lfs.mapToSlice(inputs)`: flattens a configuration map into one numeric
vector following the fixed frame ordering. -/
def linearizedFrameSystem.mapToSlice (lfs : linearizedFrameSystem)
    (inputs : FrameSystemInputs) : Except MPErr (List ℚ) :=
  mapToSliceAux inputs lfs.frames

/-- Recursion underlying `sliceToMap`: walks the fixed frame ordering, skips
zero-DoF frames, and has each moving frame consume exactly `dofCount` scalars,
erroring when the vector runs out; leftover scalars at the end are ignored. -/
def sliceToMapAux : List Frame → List ℚ → FrameSystemInputs →
    Except MPErr FrameSystemInputs
  | [], _, acc => .ok acc
  | f :: rest, floats, acc =>
    if f.dofCount = 0 then sliceToMapAux rest floats acc
    else if floats.length < f.dofCount then .error (.notEnoughValues f.name)
    else sliceToMapAux rest (floats.drop f.dofCount)
      (mapInsert acc f.name (floats.take f.dofCount))

/-- `lfs.sliceToMap(floatSlice)`: unflattens a numeric vector into a
configuration map, starting from the empty map. -/
def linearizedFrameSystem.sliceToMap (lfs : linearizedFrameSystem)
    (floats : List ℚ) : Except MPErr FrameSystemInputs :=
  sliceToMapAux lfs.frames floats []

/-! ### Pivot search -/

/-- `findPivotFrame(frameList1, frameList2)`: hashes the names of the shorter
list into a set and returns the first frame of the longer list whose name is
in the set; errors when no name is shared. -/
def findPivotFrame (frameList1 frameList2 : List Frame) : Except MPErr Frame :=
  let shortList := if frameList1.length > frameList2.length then frameList2 else frameList1
  let longList := if frameList1.length > frameList2.length then frameList1 else frameList2
  let nameSet := shortList.map (·.name)
  match longList.find? (fun f => nameSet.contains f.name) with
  | some f => .ok f
  | none => .error .noPath

/-! ### Motion chain construction -/

/-- The `movingFS` closure of `motionChainFromGoal`: scans `frameList` with
the index running from `len(frameList)-1` down to `0` (that is, from the
root/pivot end of the leaf-first list toward the leaf), takes the first frame
with nonzero degrees of freedom as `moveF`, and returns the subsystem rooted
there; when no frame moves it returns an empty frame system. -/
def movingFSfun (fs : FrameSystem) (frameList : List Frame) : FrameSystem :=
  match frameList.reverse.find? (fun f => f.dofCount != 0) with
  | none => NewEmptyFrameSystem
  | some moveF => FrameSystemSubset fs moveF

/-- The "first moving frame" rule as the specification words it: scanning a
chain from the leaf (the frame itself) toward the pivot/root, the first frame
with nonzero degrees of freedom.  Stated from the spec for comparison with
`movingFSfun`, which is embedded from the source. -/
def firstMovingFrameFromLeaf (frameList : List Frame) : Option Frame :=
  frameList.find? (fun f => f.dofCount != 0)

/-- `motionChain`: the frame span and moving subsystem resolved for one goal. -/
structure motionChain where
  movingFS : FrameSystem
  frames : List Frame
  solveFrameName : String
  goalFrameName : String
  worldRooted : Bool

/-- `motionChainFromGoal(fs, moveFrame, goalFrameName)`: computes both
ancestor chains, finds the pivot, and builds the chain's frame span, moving
subsystem and world-rooted flag exactly as the source does. -/
def motionChainFromGoal (fs : FrameSystem) (moveFrame goalFrameName : String) :
    Except MPErr motionChain := do
  let goalFrame ←
    match fs.frame goalFrameName with
    | none => Except.error (MPErr.frameMissing goalFrameName)
    | some f => Except.ok f
  let goalFrameList ←
    match tracebackFrame fs goalFrame with
    | none => Except.error (MPErr.tracebackFailed goalFrame.name)
    | some l => Except.ok l
  let solveFrame ←
    match fs.frame moveFrame with
    | none => Except.error (MPErr.frameMissing moveFrame)
    | some f => Except.ok f
  let solveFrameList ←
    match tracebackFrame fs solveFrame with
    | none => Except.error (MPErr.tracebackFailed solveFrame.name)
    | some l => Except.ok l
  if solveFrameList = [] then Except.error MPErr.emptySolveList
  else do
  let pivotFrame ← findPivotFrame solveFrameList goalFrameList
  if pivotFrame.name = World then
    let frames := uniqInPlaceSlice (solveFrameList ++ goalFrameList)
    let moving := movingFSfun fs solveFrameList
    let movingSubset2 := movingFSfun fs goalFrameList
    Except.ok ⟨MergeFrameSystem moving movingSubset2, frames,
      solveFrame.name, goalFrame.name, false⟩
  else
    let solveMovingList := solveFrameList.takeWhile (fun f => f ≠ pivotFrame)
    let goalMovingList := goalFrameList.takeWhile (fun f => f ≠ pivotFrame)
    let dof := ((solveMovingList ++ goalMovingList).map Frame.dofCount).sum
    if dof = 0 then
      Except.ok ⟨movingFSfun fs solveFrameList, solveFrameList,
        solveFrame.name, goalFrame.name, true⟩
    else
      let moving := movingFSfun fs solveMovingList
      let movingSubset2 := movingFSfun fs goalMovingList
      Except.ok ⟨MergeFrameSystem moving movingSubset2,
        solveMovingList ++ goalMovingList,
        solveFrame.name, goalFrame.name, false⟩

/-! ### Motion chains aggregate -/

/-- `PlanState`: a goal (or start) specification — per-frame target poses
and/or per-frame target configurations.  `none` models a nil Go map. -/
structure PlanState where
  poses : Option FrameSystemPoses
  configuration : Option FrameSystemInputs

/-- `motionChains`: the per-goal chains plus the PTG flags. -/
structure motionChains where
  inner : List motionChain
  useTPspace : Bool
  ptgFrameName : String

/-- The inner loop of the PTG scan in `motionChainsFromPlanState`, over the
frames of one chain.  State: whether a PTG frame was already found, its name,
and the chain (whose `worldRooted` flag the loop may set).  `n` is the total
number of chains (`len(inner)`). -/
def ptgScanFrames (n : Nat) : List Frame → motionChain → Bool → String →
    Except MPErr (motionChain × Bool × String)
  | [], chain, useTP, name => .ok (chain, useTP, name)
  | f :: rest, chain, useTP, name =>
    if f.kind = .ptg then
      if useTP then .error .onlyOnePTG
      else if n > 1 then .error .mixedFrameTypes
      else ptgScanFrames n rest { chain with worldRooted := true } true f.name
    else if f.dofCount > 0 ∧ useTP then .error .mixedFrameTypes
    else ptgScanFrames n rest chain useTP name

/-- The outer loop of the PTG scan, over all chains, threading the
`useTPspace` / `ptgFrameName` state and collecting the (possibly updated)
chains. -/
def ptgScanChains (n : Nat) : List motionChain → Bool → String →
    Except MPErr (List motionChain × Bool × String)
  | [], useTP, name => .ok ([], useTP, name)
  | chain :: rest, useTP, name => do
    let (chain', useTP', name') ← ptgScanFrames n chain.frames chain useTP name
    let (rest', u, nm) ← ptgScanChains n rest useTP' name'
    .ok (chain' :: rest', u, nm)

/-- `motionChainsFromPlanState(fs, to)`: builds one chain per pose goal (solve
frame is the goal's key, goal frame its pose's parent) and one per
configuration goal (solve frame = goal frame), requires at least one chain,
and runs the PTG exclusivity scan. -/
def motionChainsFromPlanState (fs : FrameSystem) (to' : PlanState) :
    Except MPErr motionChains := do
  let inner1 ← (to'.poses.getD []).mapM fun g =>
    motionChainFromGoal fs g.1 g.2.parent
  let inner2 ← (to'.configuration.getD []).mapM fun g =>
    motionChainFromGoal fs g.1 g.1
  let inner := inner1 ++ inner2
  if inner.length < 1 then Except.error MPErr.atLeastOneChain
  else do
    let (inner', useTPspace, ptgFrameName) ←
      ptgScanChains inner.length inner false ""
    Except.ok ⟨inner', useTPspace, ptgFrameName⟩

/-- The condition under which `geometries` classifies the named frame's
geometry as moving: the frame belongs to some chain's moving subsystem, or it
has nonzero degrees of freedom. -/
def geometryMoving (mC : motionChains) (fs : FrameSystem) (name : String) : Bool :=
  mC.inner.any (fun chain => (chain.movingFS.frame name).isSome) ||
    match fs.frame name with
    | some f => decide (f.dofCount > 0)
    | none => false

/-- `mC.geometries(fs, frameSystemGeometries)`: partitions per-frame geometry
into moving and static.  Geometry values are opaque tokens.  Returns `none`
where the Go code dereferences a nil frame (a geometry entry whose name is in
no chain's moving subsystem and not in the frame system). -/
def motionChains.geometries (mC : motionChains) (fs : FrameSystem) :
    List (String × List String) → Option (List String × List String)
  | [] => some ([], [])
  | (name, gs) :: rest =>
    if mC.inner.any (fun chain => (chain.movingFS.frame name).isSome) then
      (mC.geometries fs rest).map (fun p => (gs ++ p.1, p.2))
    else
      match fs.frame name with
      | none => none
      | some f =>
        if f.dofCount > 0 then
          (mC.geometries fs rest).map (fun p => (gs ++ p.1, p.2))
        else
          (mC.geometries fs rest).map (fun p => (p.1, gs ++ p.2))

/-- The loop of `translateGoalsToWorldPosition` over the chains: for each
chain whose solve frame has a pose goal, either re-express the pose relative
to World through `fs.transform` at the start configuration (world-rooted
chain) or keep it as is; chains without a pose goal contribute nothing. -/
def translateGoalsAux (fs : FrameSystem) (start : FrameSystemInputs)
    (poses : FrameSystemPoses) : List motionChain → FrameSystemPoses →
    Except MPErr FrameSystemPoses
  | [], acc => .ok acc
  | chain :: rest, acc =>
    match alookup poses chain.solveFrameName with
    | some goalPif =>
      if chain.worldRooted then
        match fs.transform start goalPif World with
        | .error e => .error e
        | .ok tf => translateGoalsAux fs start poses rest
            (mapInsert acc chain.solveFrameName tf)
      else
        translateGoalsAux fs start poses rest
          (mapInsert acc chain.solveFrameName goalPif)
    | none => translateGoalsAux fs start poses rest acc

/-- `mC.translateGoalsToWorldPosition(fs, start, goal)`: produces a new goal
specification with the pose goals of world-rooted chains re-expressed relative
to World; a goal with no pose map passes through whole. -/
def motionChains.translateGoalsToWorldPosition (mC : motionChains)
    (fs : FrameSystem) (start : FrameSystemInputs) (goal : PlanState) :
    Except MPErr PlanState :=
  match goal.poses with
  | some ps => do
    let altered ← translateGoalsAux fs start ps mC.inner []
    Except.ok ⟨some altered, goal.configuration⟩
  | none => .ok goal

/-! ### Concrete fixtures used by witnesses and counterexamples -/

/-- A transform function for concrete fixtures that never succeeds; none of
the fixture evaluations below reach it. -/
def dummyTransform : FrameSystemInputs → PoseInFrame → String → Except MPErr PoseInFrame :=
  fun _ _ _ => .error .transformFailed

/-- Fixture: a revolute link (one degree of freedom) parented on World. -/
def linkFrame : Frame := ⟨"link", [(0, 1)], .ordinary⟩

/-- Fixture: a rigid sensor mounted on the link. -/
def s1Frame : Frame := ⟨"s1", [], .ordinary⟩

/-- Fixture: a second rigid sensor mounted on the link. -/
def s2Frame : Frame := ⟨"s2", [], .ordinary⟩

/-- Fixture frame system: `world ← link(1 DoF) ← {s1, s2}` — two rigid sensors
on one moving link. -/
def fsSensors : FrameSystem :=
  ⟨[linkFrame, s1Frame, s2Frame],
   [("link", "world"), ("s1", "link"), ("s2", "link")], dummyTransform⟩

/-- Fixture linearized frame system over `fsSensors`, with the ordering
`newLinearizedFrameSystem` fixes. -/
def lfsSensors : linearizedFrameSystem :=
  ⟨fsSensors, [linkFrame, s1Frame, s2Frame], [(0, 1)]⟩

/-- Fixture: a one-DoF frame parented on World. -/
def bFrame : Frame := ⟨"B", [(0, 1)], .ordinary⟩

/-- Fixture: a one-DoF frame parented on `bFrame`. -/
def aFrame : Frame := ⟨"A", [(0, 1)], .ordinary⟩

/-- Fixture frame system `world ← B(1 DoF) ← A(1 DoF)`: an ancestor chain with
two moving frames. -/
def fsAB : FrameSystem :=
  ⟨[bFrame, aFrame], [("B", "world"), ("A", "B")], dummyTransform⟩

/-- The error of a failed `Except` computation, `none` on success. -/
def errOf {α : Type} : Except MPErr α → Option MPErr
  | .error e => some e
  | .ok _ => none

/-- Fixture: a one-DoF PTG frame parented on World. -/
def p1Frame : Frame := ⟨"P1", [(0, 1)], .ptg⟩

/-- Fixture: a one-DoF PTG frame parented on `p1Frame`. -/
def p2Frame : Frame := ⟨"P2", [(0, 1)], .ptg⟩

/-- Fixture frame system with two PTG frames on one ancestor chain:
`world ← P1(ptg) ← P2(ptg)`. -/
def fsTwoPTG : FrameSystem :=
  ⟨[p1Frame, p2Frame], [("P1", "world"), ("P2", "P1")], dummyTransform⟩

/-- Fixture goal: a single pose goal on `P2` relative to World. -/
def goalTwoPTG : PlanState := ⟨some [("P2", ⟨"world", ⟨0, 0, 0⟩⟩)], none⟩

/-- Fixture: an ordinary one-DoF frame parented on World. -/
def a5Frame : Frame := ⟨"A5", [(0, 1)], .ordinary⟩

/-- Fixture: a PTG frame parented on the ordinary moving frame `a5Frame`. -/
def p5Frame : Frame := ⟨"P5", [(0, 1)], .ptg⟩

/-- Fixture frame system `world ← A5(1 DoF, ordinary) ← P5(ptg)`: one chain
containing the system's only PTG frame plus an ordinary mover above it. -/
def fsPTGUnderArm : FrameSystem :=
  ⟨[a5Frame, p5Frame], [("A5", "world"), ("P5", "A5")], dummyTransform⟩

/-- Fixture goal: a single pose goal on `P5` relative to World. -/
def goalPTGUnderArm : PlanState := ⟨some [("P5", ⟨"world", ⟨0, 0, 0⟩⟩)], none⟩

/-- Fixture: a two-DoF PTG frame parented on World. -/
def pFrame : Frame := ⟨"P", [(0, 1), (0, 1)], .ptg⟩

/-- Fixture frame system with a single PTG frame on World. -/
def fsPTG : FrameSystem := ⟨[pFrame], [("P", "world")], dummyTransform⟩

/-- Fixture goal: a single pose goal on `P` relative to World. -/
def goalPTG : PlanState := ⟨some [("P", ⟨"world", ⟨0, 0, 0⟩⟩)], none⟩

/-- The chain `motionChainFromGoal` builds for the `fsPTG` fixture goal. -/
def chainPTG : motionChain :=
  match motionChainFromGoal fsPTG "P" "world" with
  | .ok c => c
  | .error _ => ⟨NewEmptyFrameSystem, [], "", "", false⟩

/-- Fixture transform: re-expresses a pose in the destination frame keeping
its numeric content, standing in for the external rigid-transform
composition. -/
def tfFixture : FrameSystemInputs → PoseInFrame → String → Except MPErr PoseInFrame :=
  fun _ pif dst => .ok ⟨dst, pif.pose⟩

/-- The sensors fixture frame system equipped with the working fixture
transform. -/
def fsTr : FrameSystem :=
  ⟨[linkFrame, s1Frame, s2Frame],
   [("link", "world"), ("s1", "link"), ("s2", "link")], tfFixture⟩

/-- The (world-rooted) chain from `s1` to `s2` over `fsTr`. -/
def chainS1S2 : motionChain :=
  match motionChainFromGoal fsTr "s1" "s2" with
  | .ok c => c
  | .error _ => ⟨NewEmptyFrameSystem, [], "", "", false⟩

/-! ### Theorems for the step-count utility (C8) -/

/-- Claim C8: `CalculateStepCount` returns the maximum of (linear distance /
step size) and (rotation angle in degrees / step size), floored and
incremented by one; the result is always at least 1; a step size of zero is
treated as 1; for identical poses (zero distance, zero rotation) the result is
1 for every step size; and a 100mm linear offset with zero rotation and step
size 10 yields 11. -/
theorem CalculateStepCount_spec :
    (∀ d t s : ℚ, s ≠ 0 → CalculateStepCount d t s = ⌊max |d / s| |t / s|⌋ + 1) ∧
    (∀ d t s : ℚ, 1 ≤ CalculateStepCount d t s) ∧
    (∀ d t : ℚ, CalculateStepCount d t 0 = CalculateStepCount d t 1) ∧
    (∀ s : ℚ, CalculateStepCount 0 0 s = 1) ∧
    CalculateStepCount 100 0 10 = 11 := by
  refine ⟨?_, ?_, ?_, ?_, ?_⟩
  · intro d t s hs
    simp [CalculateStepCount, hs]
  · intro d t s
    have h0 : (0 : ℚ) ≤ max |d / (if s = 0 then 1 else s)| |t / (if s = 0 then 1 else s)| :=
      le_trans (abs_nonneg _) (le_max_left _ _)
    have hfl : (0 : ℤ) ≤ ⌊max |d / (if s = 0 then 1 else s)| |t / (if s = 0 then 1 else s)|⌋ :=
      Int.floor_nonneg.mpr h0
    simpa [CalculateStepCount] using by omega
  · intro d t
    simp [CalculateStepCount]
  · intro s
    by_cases hs : s = 0 <;> simp [CalculateStepCount, hs]
  · norm_num [CalculateStepCount]

/-- Witness for C8: the general formula evaluated at a concrete nonzero step
size. -/
theorem CalculateStepCount_spec_witness :
    CalculateStepCount 7 0 2 = ⌊max |(7 : ℚ) / 2| |(0 : ℚ) / 2|⌋ + 1 :=
  CalculateStepCount_spec.1 7 0 2 (by norm_num)

/-! ### Theorems for the planning result promise (C9) -/

/-- Counterexample for claim C9 as stated: a promise whose precomputed node
sequence is the empty (non-nil) slice does not return it — `result()` falls
through to the asynchronous slot (the Go guard requires `len(r.steps) > 0`),
and with no producer the call blocks forever. -/
theorem resultPromise_empty_steps_counterexample :
    (resultPromise.result ⟨some ([] : List Nat), none⟩ = none) ∧
    (resultPromise.result ⟨some ([] : List Nat), none⟩ ≠ some (.ok [])) := by
  constructor
  · rfl
  · intro h
    simp [resultPromise.result] at h

/-- Claim C9 (amended): a result promise constructed with a *nonempty*
precomputed node sequence returns that sequence from `result()` regardless of
the state of the asynchronous slot — in particular even when no producer
exists (`future = none`), so the slot is never read. -/
theorem resultPromise_precomputed_result {N : Type} (l : List N)
    (fut : Option (rrtSolution N)) (hne : l ≠ []) :
    resultPromise.result ⟨some l, fut⟩ = some (.ok l) := by
  have hlen : l.length > 0 := List.length_pos.mpr hne
  simp [resultPromise.result, hlen]

/-- Witness for the amended C9 at a concrete nonempty sequence and absent
producer. -/
theorem resultPromise_precomputed_result_witness :
    resultPromise.result ⟨some [3, 1, 4], (none : Option (rrtSolution Nat))⟩ =
      some (.ok [3, 1, 4]) :=
  resultPromise_precomputed_result [3, 1, 4] none (by decide)

/-! ### Theorems for the linearized frame system (C2, C10) -/

/-- Lookup after a map update: the updated key reads the new value, every
other key is unaffected. -/
theorem alookup_mapInsert {α : Type} (m : List (String × α)) (k : String)
    (v : α) (k' : String) :
    alookup (mapInsert m k v) k' = if k' = k then some v else alookup m k' := by
  by_cases h : k' = k
  · subst h; simp [alookup, mapInsert]
  · have hk : ¬(k == k') = true := by simpa [beq_iff_eq] using fun hkk => h hkk.symm
    simp [alookup, mapInsert, List.find?_cons_of_neg, hk, h]

/-- Flatten-then-unflatten, generalized over the recursion: when the input map
covers every moving frame of the ordering with a value of the right length,
flattening succeeds, unflattening the result (with any trailing garbage and
any starting accumulator) succeeds, and the resulting map reads back the input
on every moving frame's name while leaving all other names to the
accumulator. -/
theorem mapToSlice_sliceToMap_aux (frames : List Frame) (x : FrameSystemInputs)
    (hx : ∀ f ∈ frames, f.dofCount ≠ 0 →
      ∃ v, alookup x f.name = some v ∧ v.length = f.dofCount) :
    ∃ s, mapToSliceAux x frames = .ok s ∧
      ∀ (t : List ℚ) (acc : FrameSystemInputs),
        ∃ m, sliceToMapAux frames (s ++ t) acc = .ok m ∧
          ∀ n, alookup m n =
            if frames.any (fun f => f.dofCount != 0 && f.name == n)
            then alookup x n else alookup acc n := by
  induction frames with
  | nil =>
    refine ⟨[], rfl, fun t acc => ⟨acc, rfl, fun n => ?_⟩⟩
    simp
  | cons f rest ih =>
    by_cases hdof : f.dofCount = 0
    · obtain ⟨s, hs, hrest⟩ := ih (fun g hg => hx g (List.mem_cons_of_mem f hg))
      refine ⟨s, by simpa [mapToSliceAux, hdof] using hs, fun t acc => ?_⟩
      obtain ⟨m, hm, hlook⟩ := hrest t acc
      refine ⟨m, by simpa [sliceToMapAux, hdof] using hm, fun n => ?_⟩
      have : (f.dofCount != 0 && f.name == n) = false := by simp [hdof]
      simpa [List.any_cons, this] using hlook n
    · obtain ⟨v, hv, hvlen⟩ := hx f (List.mem_cons_self f rest) hdof
      obtain ⟨s, hs, hrest⟩ := ih (fun g hg => hx g (List.mem_cons_of_mem f hg))
      refine ⟨v ++ s, by simp [mapToSliceAux, hdof, hv, hs, Except.map], fun t acc => ?_⟩
      obtain ⟨m, hm, hlook⟩ := hrest t (mapInsert acc f.name v)
      have hlen : ¬ (v ++ s ++ t).length < f.dofCount := by
        rw [List.append_assoc, List.length_append, hvlen]
        omega
      have htake : (v ++ s ++ t).take f.dofCount = v := by
        rw [List.append_assoc]
        exact List.take_left' hvlen
      have hdrop : (v ++ s ++ t).drop f.dofCount = s ++ t := by
        rw [List.append_assoc]
        exact List.drop_left' hvlen
      refine ⟨m, ?_, fun n => ?_⟩
      · simp only [sliceToMapAux, if_neg hdof, if_neg hlen, htake, hdrop]
        exact hm
      · rw [List.any_cons]
        cases hPf : (f.dofCount != 0 && f.name == n) <;>
          cases hb : rest.any (fun g => g.dofCount != 0 && g.name == n)
        · have hn : ¬ n = f.name := by
            simp only [Bool.and_eq_false_iff, bne_eq_false_iff_eq, beq_eq_false_iff_ne] at hPf
            rcases hPf with h | h
            · exact absurd h hdof
            · exact fun hc => h hc.symm
          have hm' : alookup m n = alookup (mapInsert acc f.name v) n := by
            rw [hlook n, if_neg (by simp [hb])]
          rw [hm', alookup_mapInsert, if_neg hn]
          simp
        · have hm' : alookup m n = alookup x n := by
            rw [hlook n, if_pos hb]
          rw [hm']
          simp
        · have hn : n = f.name := by
            simp only [Bool.and_eq_true, bne_iff_ne, beq_iff_eq] at hPf
            exact hPf.2.symm
          have hm' : alookup m n = alookup (mapInsert acc f.name v) n := by
            rw [hlook n, if_neg (by simp [hb])]
          rw [hm', alookup_mapInsert, if_pos hn]
          rw [hn, hv]
          simp
        · have hm' : alookup m n = alookup x n := by
            rw [hlook n, if_pos hb]
          rw [hm']
          simp

/-- Claim C2: for a linearized frame system and a configuration map that has
an entry of the right length for every frame of the fixed ordering with
nonzero degrees of freedom, `mapToSlice` succeeds, `sliceToMap` of its output
succeeds, and the result agrees with the input value-wise on every such
frame. -/
theorem mapToSlice_sliceToMap_roundtrip (lfs : linearizedFrameSystem)
    (x : FrameSystemInputs)
    (hx : ∀ f ∈ lfs.frames, f.dofCount ≠ 0 →
      ∃ v, alookup x f.name = some v ∧ v.length = f.dofCount) :
    ∃ s m, lfs.mapToSlice x = .ok s ∧ lfs.sliceToMap s = .ok m ∧
      ∀ f ∈ lfs.frames, f.dofCount ≠ 0 → alookup m f.name = alookup x f.name := by
  obtain ⟨s, hs, hrest⟩ := mapToSlice_sliceToMap_aux lfs.frames x hx
  obtain ⟨m, hm, hlook⟩ := hrest [] []
  refine ⟨s, m, hs, by simpa [linearizedFrameSystem.sliceToMap] using hm,
    fun f hf hdof => ?_⟩
  have hany : lfs.frames.any (fun g => g.dofCount != 0 && g.name == f.name) = true := by
    simp only [List.any_eq_true]
    exact ⟨f, hf, by simp [hdof]⟩
  simpa [hany] using hlook f.name

/-- Key inventory of the `sliceToMap` recursion: a name is present in the
result exactly when it names a moving frame of the ordering or was already in
the accumulator. -/
theorem sliceToMap_keys_aux (frames : List Frame) :
    ∀ (floats : List ℚ) (acc m : FrameSystemInputs),
      sliceToMapAux frames floats acc = .ok m →
      ∀ n, (alookup m n).isSome =
        (frames.any (fun f => f.dofCount != 0 && f.name == n) || (alookup acc n).isSome) := by
  induction frames with
  | nil =>
    intro floats acc m hm n
    cases hm
    simp
  | cons f rest ih =>
    intro floats acc m hm n
    by_cases hdof : f.dofCount = 0
    · have hm' : sliceToMapAux rest floats acc = .ok m := by
        simpa [sliceToMapAux, hdof] using hm
      have : (f.dofCount != 0 && f.name == n) = false := by simp [hdof]
      simpa [List.any_cons, this] using ih floats acc m hm' n
    · by_cases hlen : floats.length < f.dofCount
      · simp [sliceToMapAux, hdof, hlen] at hm
      · have hm' : sliceToMapAux rest (floats.drop f.dofCount)
            (mapInsert acc f.name (floats.take f.dofCount)) = .ok m := by
          simpa [sliceToMapAux, hdof, hlen] using hm
        have := ih (floats.drop f.dofCount)
          (mapInsert acc f.name (floats.take f.dofCount)) m hm' n
        rw [this, alookup_mapInsert]
        by_cases hn : n = f.name
        · subst hn
          simp [List.any_cons, hdof]
        · have : (f.dofCount != 0 && f.name == n) = false := by
            simp only [Bool.and_eq_false_iff, bne_eq_false_iff_eq, beq_eq_false_iff_ne]
            exact Or.inr (fun hc => hn hc.symm)
          simp [List.any_cons, this, hn]

/-- Claim C10: whenever `sliceToMap` succeeds, the returned configuration map
has an entry for exactly the frames of the fixed ordering with nonzero degrees
of freedom — zero-DoF frames never appear among its keys. -/
theorem sliceToMap_keys (lfs : linearizedFrameSystem) (v : List ℚ)
    (m : FrameSystemInputs) (h : lfs.sliceToMap v = .ok m) :
    ∀ n, (alookup m n).isSome ↔ ∃ f ∈ lfs.frames, f.dofCount ≠ 0 ∧ f.name = n := by
  intro n
  have := sliceToMap_keys_aux lfs.frames v [] m h n
  rw [this]
  simp [alookup, List.any_eq_true, beq_iff_eq]

/-- Witness for C2: the round trip evaluated on the sensors fixture with the
single moving frame `link` mapped to the one-element vector `[1]`. -/
theorem mapToSlice_sliceToMap_roundtrip_witness :
    ∃ s m, lfsSensors.mapToSlice [("link", [1])] = .ok s ∧
      lfsSensors.sliceToMap s = .ok m ∧
      ∀ f ∈ lfsSensors.frames, f.dofCount ≠ 0 →
        alookup m f.name = alookup [("link", [1])] f.name := by
  refine mapToSlice_sliceToMap_roundtrip lfsSensors [("link", [1])] ?_
  intro f hf hdof
  have hcases : f = linkFrame ∨ f = s1Frame ∨ f = s2Frame := by
    simpa [lfsSensors] using hf
  rcases hcases with h | h | h
  · subst h
    exact ⟨[1], rfl, rfl⟩
  · subst h
    exact absurd rfl hdof
  · subst h
    exact absurd rfl hdof

/-! ### Theorems for the pivot search (C1) -/

/-- Inversion of one traceback step: a successful traceback at positive fuel
either stops at World or recurses through the parent. -/
theorem tracebackAux_succ_inv (fs : FrameSystem) (k : Nat) (f : Frame)
    (c : List Frame) (h : tracebackAux fs (k + 1) f = some c) :
    (f.name = World ∧ c = [f]) ∨
    (f.name ≠ World ∧ ∃ p pf c', fs.parentName f.name = some p ∧
      fs.frame p = some pf ∧ tracebackAux fs k pf = some c' ∧ c = f :: c') := by
  rw [tracebackAux] at h
  by_cases hw : f.name = World
  · rw [if_pos hw] at h
    exact Or.inl ⟨hw, by simpa using h.symm⟩
  · rw [if_neg hw] at h
    refine Or.inr ⟨hw, ?_⟩
    cases hp : fs.parentName f.name with
    | none =>
      simp only [hp] at h
      exact Option.noConfusion h
    | some p =>
      simp only [hp] at h
      cases hf : fs.frame p with
      | none =>
        simp only [hf] at h
        exact Option.noConfusion h
      | some pf =>
        simp only [hf] at h
        cases hc : tracebackAux fs k pf with
        | none =>
          simp only [hc, Option.map] at h
          exact Option.noConfusion h
        | some c' =>
          simp only [hc, Option.map] at h
          exact ⟨p, pf, c', rfl, hf, hc, by simpa using h.symm⟩

/-- Traceback is monotone in fuel: a successful traceback is unchanged by
giving the recursion more fuel. -/
theorem tracebackAux_mono (fs : FrameSystem) :
    ∀ (n m : Nat) (f : Frame) (c : List Frame), n ≤ m →
      tracebackAux fs n f = some c → tracebackAux fs m f = some c := by
  intro n
  induction n with
  | zero => intro m f c _ h; simp [tracebackAux] at h
  | succ k ih =>
    intro m f c hnm h
    cases m with
    | zero => omega
    | succ j =>
      rcases tracebackAux_succ_inv fs k f c h with ⟨hw, hc⟩ | ⟨hw, p, pf, c', hp, hf, hc, hcc⟩
      · rw [tracebackAux, if_pos hw, hc]
      · rw [tracebackAux, if_neg hw]
        simp only [hp, hf, ih j pf c' (by omega) hc, Option.map]
        rw [hcc]

/-- A successful traceback starts with the queried frame. -/
theorem tracebackAux_head (fs : FrameSystem) (n : Nat) (f : Frame)
    (c : List Frame) (h : tracebackAux fs n f = some c) : ∃ t, c = f :: t := by
  cases n with
  | zero => simp [tracebackAux] at h
  | succ k =>
    rcases tracebackAux_succ_inv fs k f c h with ⟨_, hc⟩ | ⟨_, p, pf, c', _, _, _, hcc⟩
    · exact ⟨[], hc⟩
    · exact ⟨c', hcc⟩

/-- Frame lookup returns a frame bearing the queried name. -/
theorem frame_name (fs : FrameSystem) (n : String) (g : Frame)
    (h : fs.frame n = some g) : g.name = n := by
  unfold FrameSystem.frame at h
  by_cases hw : n = World
  · rw [if_pos hw] at h
    have : worldFrame = g := by simpa using h
    rw [← this, hw]
    rfl
  · rw [if_neg hw] at h
    have := List.find?_some h
    simpa [beq_iff_eq] using this

/-- The World frame is always found under its own name. -/
theorem frame_world (fs : FrameSystem) : fs.frame World = some worldFrame := by
  simp [FrameSystem.frame]

/-- Every element of a successful traceback of a looked-up frame is itself
found by looking its name up in the frame system. -/
theorem tracebackAux_lookup (fs : FrameSystem) :
    ∀ (n : Nat) (f : Frame) (c : List Frame), fs.frame f.name = some f →
      tracebackAux fs n f = some c → ∀ g ∈ c, fs.frame g.name = some g := by
  intro n
  induction n with
  | zero => intro f c _ h; simp [tracebackAux] at h
  | succ k ih =>
    intro f c hself h g hg
    rcases tracebackAux_succ_inv fs k f c h with ⟨_, hc⟩ | ⟨_, p, pf, c', hp, hf, hc, hcc⟩
    · rw [hc] at hg
      have : g = f := by simpa using hg
      rw [this]
      exact hself
    · rw [hcc] at hg
      rcases List.mem_cons.mp hg with rfl | hg'
      · exact hself
      · have hpfname : pf.name = p := frame_name fs p pf hf
        have hpfself : fs.frame pf.name = some pf := by rw [hpfname]; exact hf
        exact ih pf c' hpfself hc g hg'

/-- Every member of a successful traceback has its own traceback at the same
fuel, and that traceback is a suffix of the original chain. -/
theorem tracebackAux_mem_suffix (fs : FrameSystem) :
    ∀ (n : Nat) (f : Frame) (c : List Frame), tracebackAux fs n f = some c →
      ∀ g ∈ c, ∃ cg, tracebackAux fs n g = some cg ∧ cg <:+ c := by
  intro n
  induction n with
  | zero => intro f c h; simp [tracebackAux] at h
  | succ k ih =>
    intro f c h g hg
    rcases tracebackAux_succ_inv fs k f c h with ⟨_, hc⟩ | ⟨_, p, pf, c', hp, hf, hc, hcc⟩
    · rw [hc] at hg
      have hgf : g = f := by simpa using hg
      rw [hgf]
      exact ⟨c, h, List.suffix_refl c⟩
    · rw [hcc] at hg
      rcases List.mem_cons.mp hg with rfl | hg'
      · exact ⟨c, h, List.suffix_refl c⟩
      · obtain ⟨cg, hcg, hsuf⟩ := ih pf c' hc g hg'
        refine ⟨cg, tracebackAux_mono fs k (k + 1) g cg (by omega) hcg, ?_⟩
        rw [hcc]
        exact hsuf.trans (List.suffix_cons f c')

/-- A successful traceback has no repeated frame. -/
theorem tracebackAux_nodup (fs : FrameSystem) :
    ∀ (n : Nat) (f : Frame) (c : List Frame),
      tracebackAux fs n f = some c → c.Nodup := by
  intro n
  induction n with
  | zero => intro f c h; simp [tracebackAux] at h
  | succ k ih =>
    intro f c h
    rcases tracebackAux_succ_inv fs k f c h with ⟨_, hc⟩ | ⟨_, p, pf, c', hp, hf, hc, hcc⟩
    · rw [hc]
      simp
    · have hnd' : c'.Nodup := ih pf c' hc
      have hfnot : f ∉ c' := by
        intro hfin
        obtain ⟨cg, hcg, hsuf⟩ := tracebackAux_mem_suffix fs k pf c' hc f hfin
        have hlift : tracebackAux fs (k + 1) f = some cg :=
          tracebackAux_mono fs k (k + 1) f cg (by omega) hcg
        rw [h] at hlift
        have hceq : c = cg := by simpa using hlift
        have hlen := hsuf.length_le
        rw [← hceq, hcc] at hlen
        simp at hlen
      rw [hcc]
      exact List.nodup_cons.mpr ⟨hfnot, hnd'⟩

/-- A successful traceback of a looked-up frame contains the World frame. -/
theorem tracebackAux_world_mem (fs : FrameSystem) :
    ∀ (n : Nat) (f : Frame) (c : List Frame), fs.frame f.name = some f →
      tracebackAux fs n f = some c → worldFrame ∈ c := by
  intro n
  induction n with
  | zero => intro f c _ h; simp [tracebackAux] at h
  | succ k ih =>
    intro f c hself h
    rcases tracebackAux_succ_inv fs k f c h with ⟨hw, hc⟩ | ⟨_, p, pf, c', hp, hf, hc, hcc⟩
    · have : fs.frame World = some f := by rw [← hw]; exact hself
      rw [frame_world fs] at this
      have hfw : f = worldFrame := by simpa using this.symm
      rw [hc, hfw]
      simp
    · have hpfname : pf.name = p := frame_name fs p pf hf
      have hpfself : fs.frame pf.name = some pf := by rw [hpfname]; exact hf
      have := ih pf c' hpfself hc
      rw [hcc]
      exact List.mem_cons_of_mem f this


/-- A successful `find?` splits its list at the found element, with the
predicate false on everything before it. -/
theorem find?_split {α : Type} (p : α → Bool) :
    ∀ (l : List α) (a : α), l.find? p = some a →
      ∃ l1 l2, l = l1 ++ a :: l2 ∧ ∀ x ∈ l1, p x = false := by
  intro l
  induction l with
  | nil => intro a h; simp at h
  | cons b t ih =>
    intro a h
    cases hpb : p b with
    | true =>
      rw [List.find?_cons_of_pos t hpb] at h
      have : b = a := by simpa using h
      rw [this] at *
      exact ⟨[], t, rfl, by simp⟩
    | false =>
      rw [List.find?_cons_of_neg t (by simp [hpb])] at h
      obtain ⟨l1, l2, heq, hl1⟩ := ih a h
      refine ⟨b :: l1, l2, by rw [heq]; rfl, ?_⟩
      intro x hx
      rcases List.mem_cons.mp hx with rfl | hx'
      · exact hpb
      · exact hl1 x hx'

/-- Two suffixes of a duplicate-free list that start with the same element are
equal. -/
theorem suffix_eq_of_head {α : Type} {c s1 s2 : List α} {a : α} (hnd : c.Nodup)
    (h1 : s1 <:+ c) (h2 : s2 <:+ c) (e1 : ∃ t, s1 = a :: t)
    (e2 : ∃ t, s2 = a :: t) : s1 = s2 := by
  obtain ⟨t1, rfl⟩ := e1
  obtain ⟨t2, rfl⟩ := e2
  rcases List.suffix_or_suffix_of_suffix h1 h2 with h | h
  · rcases List.suffix_cons_iff.mp h with he | h'
    · exact he
    · have ha : a ∈ t2 := h'.subset (List.mem_cons_self a t1)
      have hnd2 : (a :: t2).Nodup := List.Nodup.sublist h2.sublist hnd
      exact absurd ha (List.nodup_cons.mp hnd2).1
  · rcases List.suffix_cons_iff.mp h with he | h'
    · exact he.symm
    · have ha : a ∈ t1 := h'.subset (List.mem_cons_self a t2)
      have hnd1 : (a :: t1).Nodup := List.Nodup.sublist h1.sublist hnd
      exact absurd ha (List.nodup_cons.mp hnd1).1

/-- Scanning one root-bound chain for the first frame whose name occurs in the
other chain yields a frame of both chains whose own ancestor chain is a suffix
of the scanned chain and contains every frame common to the two chains. -/
theorem firstCommon_spec (fs : FrameSystem) (c1 c2 : List Frame)
    (P1 : ∀ g ∈ c1, fs.frame g.name = some g)
    (P2 : ∀ g ∈ c2, fs.frame g.name = some g)
    (S1 : ∀ g ∈ c1, ∃ cg, tracebackFrame fs g = some cg ∧ cg <:+ c1)
    (N1 : c1.Nodup) (p : Frame)
    (hp : c1.find? (fun f => (c2.map (·.name)).contains f.name) = some p) :
    p ∈ c1 ∧ p ∈ c2 ∧ ∃ cp, tracebackFrame fs p = some cp ∧ cp <:+ c1 ∧
      ∀ g, g ∈ c1 → g ∈ c2 → g ∈ cp := by
  have hpmem : p ∈ c1 := List.mem_of_find?_eq_some hp
  have hpsat : ((c2.map (fun x => x.name)).contains p.name) = true := by
    simpa using List.find?_some hp
  have hpc2 : p ∈ c2 := by
    have hpn : p.name ∈ c2.map (fun x => x.name) := by
      obtain ⟨b, hb, hbeq⟩ := List.contains_iff_exists_mem_beq.mp hpsat
      rw [eq_of_beq hbeq]
      exact hb
    obtain ⟨g2, hg2, hname⟩ := List.mem_map.mp hpn
    have e1 := P1 p hpmem
    have e2 := P2 g2 hg2
    rw [hname] at e2
    rw [e1] at e2
    have hpg : p = g2 := Option.some.inj e2
    rw [hpg]
    exact hg2
  obtain ⟨pre, post, hsplit, hpre⟩ := find?_split _ c1 p hp
  obtain ⟨cp, hcp, hcpsuf⟩ := S1 p hpmem
  obtain ⟨cptail, hcphead⟩ := tracebackAux_head fs _ p cp hcp
  have hpost : (p :: post) <:+ c1 := by
    rw [hsplit]; exact ⟨pre, rfl⟩
  have hcpeq : cp = p :: post :=
    suffix_eq_of_head N1 hcpsuf hpost ⟨cptail, hcphead⟩ ⟨post, rfl⟩
  refine ⟨hpmem, hpc2, cp, hcp, hcpsuf, ?_⟩
  intro g hg1 hg2
  rw [hsplit] at hg1
  rcases List.mem_append.mp hg1 with hgpre | hgpp
  · have hgname : g.name ∈ c2.map (fun x => x.name) := List.mem_map_of_mem _ hg2
    have htrue : ((c2.map (fun x => x.name)).contains g.name) = true :=
      List.contains_iff_exists_mem_beq.mpr ⟨g.name, hgname, by simp⟩
    have hfalse : ((c2.map (fun x => x.name)).contains g.name) = false := by
      simpa using hpre g hgpre
    rw [htrue] at hfalse
    exact Bool.noConfusion hfalse
  · rw [hcpeq]
    exact hgpp

/-- Two frames of a chain whose tracebacks each contain the other are equal. -/
theorem lca_unique (fs : FrameSystem) {c1 : List Frame}
    {p q : Frame} {cp cq : List Frame}
    (hcp : tracebackFrame fs p = some cp) (hcq : tracebackFrame fs q = some cq)
    (hcps : cp <:+ c1) (hcqs : cq <:+ c1)
    (hq : q ∈ cp) (hp : p ∈ cq) : p = q := by
  obtain ⟨tp, hcphead⟩ := tracebackAux_head fs _ p cp hcp
  obtain ⟨tq, hcqhead⟩ := tracebackAux_head fs _ q cq hcq
  have hndcq : cq.Nodup := tracebackAux_nodup fs _ q cq hcq
  have hndcp : cp.Nodup := tracebackAux_nodup fs _ p cp hcp
  rcases List.suffix_or_suffix_of_suffix hcps hcqs with h | h
  · rw [hcqhead] at h
    rcases List.suffix_cons_iff.mp h with he | h'
    · rw [hcphead] at he
      exact (List.cons.injEq .. ▸ he).1
    · have : q ∈ tq := h'.subset hq
      rw [hcqhead] at hndcq
      exact absurd this (List.nodup_cons.mp hndcq).1
  · rw [hcphead] at h
    rcases List.suffix_cons_iff.mp h with he | h'
    · rw [hcqhead] at he
      exact ((List.cons.injEq .. ▸ he).1).symm
    · have : p ∈ tp := h'.subset hp
      rw [hcphead] at hndcp
      exact absurd this (List.nodup_cons.mp hndcp).1

/-- Claim C1: for every frame system and every pair of root-bound ancestor
chains obtained from it by traceback, `findPivotFrame` succeeds and returns a
frame `p` lying on both chains (an ancestor-or-self of both queried frames, or
World); `p` is the unique lowest common ancestor in that `p`'s own ancestor
chain is a suffix of both input chains and contains every frame the two chains
share; swapping the two argument lists returns the same pivot; and on any two
lists sharing no frame name `findPivotFrame` fails with the no-path error. -/
theorem findPivotFrame_lca (fs : FrameSystem) (n1 n2 : String) (f1 f2 : Frame)
    (c1 c2 : List Frame)
    (h1 : fs.frame n1 = some f1) (h2 : fs.frame n2 = some f2)
    (ht1 : tracebackFrame fs f1 = some c1) (ht2 : tracebackFrame fs f2 = some c2) :
    (∃ p cp, findPivotFrame c1 c2 = .ok p ∧ findPivotFrame c2 c1 = .ok p ∧
      p ∈ c1 ∧ p ∈ c2 ∧
      tracebackFrame fs p = some cp ∧ cp <:+ c1 ∧ cp <:+ c2 ∧
      ∀ g, g ∈ c1 → g ∈ c2 → g ∈ cp) ∧
    (∀ l1 l2 : List Frame, (∀ a ∈ l1, ∀ b ∈ l2, a.name ≠ b.name) →
      findPivotFrame l1 l2 = .error .noPath) := by
  constructor
  · -- derived facts about the two chains
    have hf1self : fs.frame f1.name = some f1 := by
      rw [frame_name fs n1 f1 h1]; exact h1
    have hf2self : fs.frame f2.name = some f2 := by
      rw [frame_name fs n2 f2 h2]; exact h2
    have P1 : ∀ g ∈ c1, fs.frame g.name = some g :=
      tracebackAux_lookup fs _ f1 c1 hf1self ht1
    have P2 : ∀ g ∈ c2, fs.frame g.name = some g :=
      tracebackAux_lookup fs _ f2 c2 hf2self ht2
    have S1 : ∀ g ∈ c1, ∃ cg, tracebackFrame fs g = some cg ∧ cg <:+ c1 :=
      tracebackAux_mem_suffix fs _ f1 c1 ht1
    have S2 : ∀ g ∈ c2, ∃ cg, tracebackFrame fs g = some cg ∧ cg <:+ c2 :=
      tracebackAux_mem_suffix fs _ f2 c2 ht2
    have N1 : c1.Nodup := tracebackAux_nodup fs _ f1 c1 ht1
    have N2 : c2.Nodup := tracebackAux_nodup fs _ f2 c2 ht2
    have hw1 : worldFrame ∈ c1 := tracebackAux_world_mem fs _ f1 c1 hf1self ht1
    have hw2 : worldFrame ∈ c2 := tracebackAux_world_mem fs _ f2 c2 hf2self ht2
    -- both directed scans succeed
    have hscan1 : ∃ p, c1.find? (fun f => (c2.map (·.name)).contains f.name) = some p := by
      cases hfind : c1.find? (fun f => (c2.map (·.name)).contains f.name) with
      | some p => exact ⟨p, rfl⟩
      | none =>
        have := List.find?_eq_none.mp hfind worldFrame hw1
        have hmem : worldFrame.name ∈ c2.map (·.name) := List.mem_map_of_mem _ hw2
        exact absurd (List.contains_iff_exists_mem_beq.mpr ⟨_, hmem, by simp⟩) this
    have hscan2 : ∃ q, c2.find? (fun f => (c1.map (·.name)).contains f.name) = some q := by
      cases hfind : c2.find? (fun f => (c1.map (·.name)).contains f.name) with
      | some q => exact ⟨q, rfl⟩
      | none =>
        have := List.find?_eq_none.mp hfind worldFrame hw2
        have hmem : worldFrame.name ∈ c1.map (·.name) := List.mem_map_of_mem _ hw1
        exact absurd (List.contains_iff_exists_mem_beq.mpr ⟨_, hmem, by simp⟩) this
    obtain ⟨p, hpfind⟩ := hscan1
    obtain ⟨q, hqfind⟩ := hscan2
    obtain ⟨hpc1, hpc2, cp, hcp, hcpsuf1, hcpall⟩ :=
      firstCommon_spec fs c1 c2 P1 P2 S1 N1 p hpfind
    obtain ⟨hqc2, hqc1, cq, hcq, hcqsuf2, hcqall⟩ :=
      firstCommon_spec fs c2 c1 P2 P1 S2 N2 q hqfind
    -- tracebacks of p and q are suffixes of both chains
    obtain ⟨cq1, hcq1, hcq1suf⟩ := S1 q hqc1
    have hcq1eq : cq1 = cq := by
      rw [hcq] at hcq1
      simpa using hcq1.symm
    rw [hcq1eq] at hcq1suf
    obtain ⟨cp2, hcp2, hcp2suf⟩ := S2 p hpc2
    have hcp2eq : cp2 = cp := by
      rw [hcp] at hcp2
      simpa using hcp2.symm
    rw [hcp2eq] at hcp2suf
    -- the two scans find the same frame
    have hpq : p = q :=
      lca_unique fs hcp hcq hcpsuf1 hcq1suf
        (hcpall q hqc1 hqc2) (hcqall p hpc2 hpc1)
    refine ⟨p, cp, ?_, ?_, hpc1, hpc2, hcp, hcpsuf1, hcp2suf, hcpall⟩
    · unfold findPivotFrame
      by_cases hlen : c1.length > c2.length
      · simp only [if_pos hlen, hpfind]
      · simp only [if_neg hlen, hqfind, ← hpq]
    · unfold findPivotFrame
      by_cases hlen : c2.length > c1.length
      · simp only [if_pos hlen, hqfind, ← hpq]
      · simp only [if_neg hlen, hpfind]
  · intro l1 l2 hnone
    unfold findPivotFrame
    by_cases hlen : l1.length > l2.length
    · simp only [if_pos hlen]
      have : l1.find? (fun f => (l2.map (·.name)).contains f.name) = none := by
        rw [List.find?_eq_none]
        intro x hx hcont
        obtain ⟨b, hb, hbeq⟩ := List.contains_iff_exists_mem_beq.mp hcont
        obtain ⟨g2, hg2, hname⟩ := List.mem_map.mp hb
        exact hnone x hx g2 hg2 ((eq_of_beq hbeq).trans hname.symm)
      rw [this]
    · simp only [if_neg hlen]
      have : l2.find? (fun f => (l1.map (·.name)).contains f.name) = none := by
        rw [List.find?_eq_none]
        intro x hx hcont
        obtain ⟨b, hb, hbeq⟩ := List.contains_iff_exists_mem_beq.mp hcont
        obtain ⟨g1, hg1, hname⟩ := List.mem_map.mp hb
        exact hnone g1 hg1 x hx (hname.trans (eq_of_beq hbeq).symm)
      rw [this]

/-- Witness for C1: the pivot search applied to the traceback chains of the
two sensors of the fixture system, whose pivot is the link. -/
theorem findPivotFrame_lca_witness :
    (∃ p cp,
      findPivotFrame [s1Frame, linkFrame, worldFrame] [s2Frame, linkFrame, worldFrame] = .ok p ∧
      findPivotFrame [s2Frame, linkFrame, worldFrame] [s1Frame, linkFrame, worldFrame] = .ok p ∧
      p ∈ [s1Frame, linkFrame, worldFrame] ∧ p ∈ [s2Frame, linkFrame, worldFrame] ∧
      tracebackFrame fsSensors p = some cp ∧
      cp <:+ [s1Frame, linkFrame, worldFrame] ∧
      cp <:+ [s2Frame, linkFrame, worldFrame] ∧
      ∀ g, g ∈ [s1Frame, linkFrame, worldFrame] →
        g ∈ [s2Frame, linkFrame, worldFrame] → g ∈ cp) ∧
    (∀ l1 l2 : List Frame, (∀ a ∈ l1, ∀ b ∈ l2, a.name ≠ b.name) →
      findPivotFrame l1 l2 = .error .noPath) :=
  findPivotFrame_lca fsSensors "s1" "s2" s1Frame s2Frame
    [s1Frame, linkFrame, worldFrame] [s2Frame, linkFrame, worldFrame]
    rfl rfl rfl rfl

/-- Witness for C10: `sliceToMap` on the sensors fixture applied to `[1]`
yields a map whose keys are exactly the moving frames of the ordering. -/
theorem sliceToMap_keys_witness :
    ((alookup [("link", [(1 : ℚ)])] "link").isSome ↔
      ∃ f ∈ lfsSensors.frames, f.dofCount ≠ 0 ∧ f.name = "link") ∧
    ((alookup [("link", [(1 : ℚ)])] "s1").isSome ↔
      ∃ f ∈ lfsSensors.frames, f.dofCount ≠ 0 ∧ f.name = "s1") :=
  ⟨sliceToMap_keys lfsSensors [1] [("link", [1])] rfl "link",
   sliceToMap_keys lfsSensors [1] [("link", [1])] rfl "s1"⟩

/-! ### Theorems for motion chain construction (C3, C4) -/

/-- Bind of a successful `Except` computation reduces to the continuation. -/
theorem ok_bind {ε α β : Type} (a : α) (f : α → Except ε β) :
    ((Except.ok a : Except ε α) >>= f) = f a := rfl

/-- Claim C3: for a chain built by `motionChainFromGoal` (stated through the
intermediate values the function computes: the two tracebacks and the pivot),
the `worldRooted` flag is true exactly when the pivot is not World and the
total degrees of freedom of the frames collected strictly before the pivot on
both the solve side and the goal side (leaf included, pivot excluded) is zero;
and in that case the chain's frame span is the full solve-side ancestor chain
and its moving subsystem is derived from the solve side alone. -/
theorem motionChainFromGoal_worldRooted_iff (fs : FrameSystem)
    (moveFrame goalFrameName : String) (sf gf : Frame) (sl gl : List Frame)
    (p : Frame)
    (hgf : fs.frame goalFrameName = some gf)
    (hgl : tracebackFrame fs gf = some gl)
    (hsf : fs.frame moveFrame = some sf)
    (hsl : tracebackFrame fs sf = some sl)
    (hne : ¬ sl = [])
    (hp : findPivotFrame sl gl = .ok p) :
    ∃ chain, motionChainFromGoal fs moveFrame goalFrameName = .ok chain ∧
      (chain.worldRooted = true ↔ (¬ p.name = World ∧
        ((sl.takeWhile (fun f => f ≠ p) ++ gl.takeWhile (fun f => f ≠ p)).map
          Frame.dofCount).sum = 0)) ∧
      (chain.worldRooted = true →
        chain.frames = sl ∧ chain.movingFS = movingFSfun fs sl) := by
  by_cases hw : p.name = World
  · refine ⟨⟨MergeFrameSystem (movingFSfun fs sl) (movingFSfun fs gl),
      uniqInPlaceSlice (sl ++ gl), sf.name, gf.name, false⟩, ?_, ?_, ?_⟩
    · simp only [motionChainFromGoal, hgf, hgl, hsf, hsl, if_neg hne, hp,
        ok_bind, if_pos hw]
    · constructor
      · intro h
        simp at h
      · rintro ⟨hnw, -⟩
        exact absurd hw hnw
    · intro h
      simp at h
  · by_cases hdof : ((sl.takeWhile (fun f => f ≠ p) ++
        gl.takeWhile (fun f => f ≠ p)).map Frame.dofCount).sum = 0
    · refine ⟨⟨movingFSfun fs sl, sl, sf.name, gf.name, true⟩, ?_, ?_, ?_⟩
      · simp only [motionChainFromGoal, hgf, hgl, hsf, hsl, if_neg hne, hp,
          ok_bind, if_neg hw, if_pos hdof]
      · constructor
        · intro _
          exact ⟨hw, hdof⟩
        · intro _
          rfl
      · intro _
        exact ⟨rfl, rfl⟩
    · refine ⟨⟨MergeFrameSystem (movingFSfun fs (sl.takeWhile (fun f => f ≠ p)))
          (movingFSfun fs (gl.takeWhile (fun f => f ≠ p))),
        sl.takeWhile (fun f => f ≠ p) ++ gl.takeWhile (fun f => f ≠ p),
        sf.name, gf.name, false⟩, ?_, ?_, ?_⟩
      · simp only [motionChainFromGoal, hgf, hgl, hsf, hsl, if_neg hne, hp,
          ok_bind, if_neg hw, if_neg hdof]
      · constructor
        · intro h
          simp at h
        · rintro ⟨-, hd⟩
          exact absurd hd hdof
      · intro h
        simp at h

/-- Witness for C3: the two-sensors fixture — the chain from `s1` to `s2`
pivots at the link, every frame strictly between the sensors and the link is
rigid, and the resulting chain is world-rooted with the full solve chain as
span. -/
theorem motionChainFromGoal_worldRooted_iff_witness :
    ∃ chain, motionChainFromGoal fsSensors "s1" "s2" = .ok chain ∧
      (chain.worldRooted = true ↔ (¬ linkFrame.name = World ∧
        (([s1Frame, linkFrame, worldFrame].takeWhile (fun f => f ≠ linkFrame) ++
          [s2Frame, linkFrame, worldFrame].takeWhile (fun f => f ≠ linkFrame)).map
          Frame.dofCount).sum = 0)) ∧
      (chain.worldRooted = true →
        chain.frames = [s1Frame, linkFrame, worldFrame] ∧
        chain.movingFS = movingFSfun fsSensors [s1Frame, linkFrame, worldFrame]) :=
  motionChainFromGoal_worldRooted_iff fsSensors "s1" "s2" s1Frame s2Frame
    [s1Frame, linkFrame, worldFrame] [s2Frame, linkFrame, worldFrame] linkFrame
    rfl rfl rfl rfl (by decide) rfl

/-- Counterexample for claim C4 as stated: on the chain `[A, B, world]` of the
system `world ← B(1 DoF) ← A(1 DoF)` the spec's leaf-to-root rule picks `A`,
whose subsystem excludes `B`; the chain built by `motionChainFromGoal`
nevertheless has `B` in its moving subsystem, because the closure scans from
the root end and roots the subsystem at `B`. -/
theorem movingFS_leafScan_counterexample :
    firstMovingFrameFromLeaf [aFrame, bFrame, worldFrame] = some aFrame ∧
    ((FrameSystemSubset fsAB aFrame).frame "B") = none ∧
    (motionChainFromGoal fsAB "A" World).toOption.map
      (fun ch => (ch.movingFS.frame "B").isSome) = some true ∧
    movingFSfun fsAB [aFrame, bFrame, worldFrame] = FrameSystemSubset fsAB bFrame := by
  refine ⟨by decide, by decide, by decide, rfl⟩

/-- Claim C4 (amended): the moving-subsystem closure of `motionChainFromGoal`
scans the ancestor chain from the pivot/root end toward the leaf and roots the
subsystem at the first nonzero-DoF frame found there — that is, at the
nonzero-DoF frame closest to the root, every frame after which (toward the
root) is rigid; when no frame of the chain has nonzero degrees of freedom the
moving subsystem is the empty frame system. -/
theorem movingFSfun_scans_from_root :
    (∀ (fs : FrameSystem) (l : List Frame), (∀ g ∈ l, g.dofCount = 0) →
      movingFSfun fs l = NewEmptyFrameSystem) ∧
    (∀ (fs : FrameSystem) (l1 l2 : List Frame) (f : Frame), f.dofCount ≠ 0 →
      (∀ g ∈ l2, g.dofCount = 0) →
      movingFSfun fs (l1 ++ f :: l2) = FrameSystemSubset fs f) := by
  constructor
  · intro fs l hz
    unfold movingFSfun
    have : l.reverse.find? (fun f => f.dofCount != 0) = none := by
      rw [List.find?_eq_none]
      intro x hx
      simp [hz x (List.mem_reverse.mp hx)]
    rw [this]
  · intro fs l1 l2 f hf hz
    unfold movingFSfun
    have hrev : (l1 ++ f :: l2).reverse = l2.reverse ++ f :: l1.reverse := by
      simp
    have hnone : l2.reverse.find? (fun g => g.dofCount != 0) = none := by
      rw [List.find?_eq_none]
      intro x hx
      simp [hz x (List.mem_reverse.mp hx)]
    have hfind : (l1 ++ f :: l2).reverse.find? (fun g => g.dofCount != 0) = some f := by
      rw [hrev, List.find?_append, hnone]
      simp [List.find?_cons_of_pos, hf]
    rw [hfind]

/-- Witness for the amended C4: on the `[A, B, world]` chain, `B` is the
nonzero-DoF frame nearest the root (only the rigid World frame follows it),
and the closure roots the subsystem there. -/
theorem movingFSfun_scans_from_root_witness :
    movingFSfun fsAB ([aFrame] ++ bFrame :: [worldFrame]) =
      FrameSystemSubset fsAB bFrame :=
  movingFSfun_scans_from_root.2 fsAB [aFrame] [worldFrame] bFrame (by decide)
    (by decide)

/-! ### Theorems for PTG exclusivity (C5) -/

/-- PTG-free frames are skipped by the scan while no PTG frame has been
found. -/
theorem ptgScanFrames_pass_false (n : Nat) :
    ∀ (l r : List Frame) (chain : motionChain) (nm : String),
      (∀ f ∈ l, f.kind ≠ .ptg) →
      ptgScanFrames n (l ++ r) chain false nm = ptgScanFrames n r chain false nm := by
  intro l
  induction l with
  | nil => intro r chain nm _; rfl
  | cons f t ih =>
    intro r chain nm h
    have hf : f.kind ≠ .ptg := h f (by simp)
    show ptgScanFrames n (f :: (t ++ r)) chain false nm = _
    rw [ptgScanFrames, if_neg hf, if_neg (by simp)]
    exact ih r chain nm (fun g hg => h g (by simp [hg]))

/-- Rigid PTG-free frames are skipped by the scan after a PTG frame has been
found. -/
theorem ptgScanFrames_pass_true (n : Nat) :
    ∀ (l r : List Frame) (chain : motionChain) (nm : String),
      (∀ f ∈ l, f.kind ≠ .ptg ∧ f.dofCount = 0) →
      ptgScanFrames n (l ++ r) chain true nm = ptgScanFrames n r chain true nm := by
  intro l
  induction l with
  | nil => intro r chain nm _; rfl
  | cons f t ih =>
    intro r chain nm h
    obtain ⟨hf, hd⟩ := h f (by simp)
    show ptgScanFrames n (f :: (t ++ r)) chain true nm = _
    rw [ptgScanFrames, if_neg hf, if_neg (by simp [hd])]
    exact ih r chain nm (fun g hg => h g (by simp [hg]))

/-- A PTG-free chain leaves the scan state untouched. -/
theorem ptgScanFrames_all_pass_false (n : Nat) (l : List Frame)
    (chain : motionChain) (nm : String) (h : ∀ f ∈ l, f.kind ≠ .ptg) :
    ptgScanFrames n l chain false nm = .ok (chain, false, nm) := by
  have := ptgScanFrames_pass_false n l [] chain nm h
  rw [List.append_nil] at this
  rw [this]
  rfl

/-- When more than one chain exists, reaching any PTG frame with no PTG frame
seen so far fails with the mixed-frame-types error. -/
theorem ptgScanFrames_mixed_of_ptg (n : Nat) (hn : n > 1) :
    ∀ (l : List Frame) (chain : motionChain) (nm : String),
      (∃ f ∈ l, f.kind = .ptg) →
      ptgScanFrames n l chain false nm = .error .mixedFrameTypes := by
  intro l
  induction l with
  | nil =>
    rintro chain nm ⟨f, hf, -⟩
    simp at hf
  | cons f t ih =>
    rintro chain nm ⟨g, hg, hgk⟩
    by_cases hf : f.kind = .ptg
    · rw [ptgScanFrames, if_pos hf, if_neg (by simp), if_pos hn]
    · rw [ptgScanFrames, if_neg hf, if_neg (by simp)]
      apply ih
      rcases List.mem_cons.mp hg with rfl | hg'
      · exact absurd hgk hf
      · exact ⟨g, hg', hgk⟩

/-- When more than one chain exists, a PTG frame anywhere in any chain makes
the chain scan fail with the mixed-frame-types error. -/
theorem ptgScanChains_mixed_of_ptg (n : Nat) (hn : n > 1) :
    ∀ (cs : List motionChain) (nm : String),
      (∃ ch ∈ cs, ∃ f ∈ ch.frames, f.kind = .ptg) →
      ptgScanChains n cs false nm = .error .mixedFrameTypes := by
  intro cs
  induction cs with
  | nil =>
    rintro nm ⟨ch, h, -⟩
    simp at h
  | cons c rest ih =>
    rintro nm ⟨ch, hch, f, hf, hfk⟩
    by_cases hc : ∃ f ∈ c.frames, f.kind = .ptg
    · have hmix := ptgScanFrames_mixed_of_ptg n hn c.frames c nm hc
      rw [ptgScanChains]
      rw [hmix]
      rfl
    · push_neg at hc
      have hpass := ptgScanFrames_all_pass_false n c.frames c nm hc
      rw [ptgScanChains]
      simp only [hpass, ok_bind]
      rcases List.mem_cons.mp hch with rfl | hch'
      · exact absurd hfk (hc f hf)
      · rw [ih nm ⟨ch, hch', f, hf, hfk⟩]
        rfl

/-- Scanning a single chain whose first PTG frame is followed only by frames
that are neither PTG nor moving succeeds, setting the flag, the name, and the
chain's world-rooted bit. -/
theorem ptgScanFrames_single_success (f : Frame) (l1 l2 : List Frame)
    (chain : motionChain) (nm : String)
    (hf : f.kind = .ptg)
    (h1 : ∀ g ∈ l1, g.kind ≠ .ptg)
    (h2 : ∀ g ∈ l2, g.kind ≠ .ptg ∧ g.dofCount = 0) :
    ptgScanFrames 1 (l1 ++ f :: l2) chain false nm =
      .ok ({chain with worldRooted := true}, true, f.name) := by
  rw [ptgScanFrames_pass_false 1 l1 (f :: l2) chain nm h1]
  rw [ptgScanFrames, if_pos hf, if_neg (by simp), if_neg (by omega)]
  have := ptgScanFrames_pass_true 1 l2 [] { chain with worldRooted := true } f.name h2
  rw [List.append_nil] at this
  rw [this]
  rfl

/-- Scanning a single chain that contains a second PTG frame after the first,
with no moving or PTG frame in between, fails with the only-one-PTG error. -/
theorem ptgScanFrames_two_ptg (f1 f2 : Frame) (l1 l2 l3 : List Frame)
    (chain : motionChain) (nm : String)
    (hf1 : f1.kind = .ptg) (hf2 : f2.kind = .ptg)
    (h1 : ∀ g ∈ l1, g.kind ≠ .ptg)
    (h2 : ∀ g ∈ l2, g.kind ≠ .ptg ∧ g.dofCount = 0) :
    ptgScanFrames 1 (l1 ++ f1 :: (l2 ++ f2 :: l3)) chain false nm =
      .error .onlyOnePTG := by
  rw [ptgScanFrames_pass_false 1 l1 (f1 :: (l2 ++ f2 :: l3)) chain nm h1]
  rw [ptgScanFrames, if_pos hf1, if_neg (by simp), if_neg (by omega)]
  rw [ptgScanFrames_pass_true 1 l2 (f2 :: l3) { chain with worldRooted := true } f1.name h2]
  rw [ptgScanFrames, if_pos hf2, if_pos (by simp)]

/-- Counterexample for claim C5 as stated.  First, a goal whose single chain
contains two PTG frames fails with the only-one-PTG error, not the
mixed-frame-types error the claim names.  Second, a goal with exactly one
chain containing the system's only PTG frame does not always succeed: when an
ordinary nonzero-DoF frame follows the PTG frame in the chain's frame list
(here `world ← A5(1 DoF) ← P5(ptg)`, chain frames `[P5, A5, world]`),
construction fails with the mixed-frame-types error. -/
theorem ptg_exclusivity_counterexample :
    errOf (motionChainsFromPlanState fsTwoPTG goalTwoPTG) = some .onlyOnePTG ∧
    errOf (motionChainsFromPlanState fsPTGUnderArm goalPTGUnderArm) =
      some .mixedFrameTypes := by
  exact ⟨by decide, by decide⟩

/-- Claim C5 (amended): with the per-goal chains built successfully, (i) when
at least two chains exist and any chain contains a PTG frame, construction
fails with the mixed-frame-types error; (ii) when exactly one chain exists,
it contains exactly one PTG frame, and no ordinary nonzero-DoF frame follows
that PTG frame in the chain's frame list, construction succeeds with
`useTPspace` set, `ptgFrameName` set to that frame's name, and the chain
forced world-rooted; (iii) when the single chain contains a second PTG frame
after the first (nothing PTG or moving in between), construction fails with
the only-one-PTG error. -/
theorem motionChainsFromPlanState_ptg_rules :
    (∀ (fs : FrameSystem) (to' : PlanState) (inner1 inner2 : List motionChain),
      ((to'.poses.getD []).mapM fun g => motionChainFromGoal fs g.1 g.2.parent) = .ok inner1 →
      ((to'.configuration.getD []).mapM fun g => motionChainFromGoal fs g.1 g.1) = .ok inner2 →
      (inner1 ++ inner2).length > 1 →
      (∃ ch ∈ inner1 ++ inner2, ∃ f ∈ ch.frames, f.kind = .ptg) →
      motionChainsFromPlanState fs to' = .error .mixedFrameTypes) ∧
    (∀ (fs : FrameSystem) (to' : PlanState) (inner1 inner2 : List motionChain)
      (ch : motionChain) (l1 l2 : List Frame) (P : Frame),
      ((to'.poses.getD []).mapM fun g => motionChainFromGoal fs g.1 g.2.parent) = .ok inner1 →
      ((to'.configuration.getD []).mapM fun g => motionChainFromGoal fs g.1 g.1) = .ok inner2 →
      inner1 ++ inner2 = [ch] →
      ch.frames = l1 ++ P :: l2 → P.kind = .ptg →
      (∀ g ∈ l1, g.kind ≠ .ptg) →
      (∀ g ∈ l2, g.kind ≠ .ptg ∧ g.dofCount = 0) →
      motionChainsFromPlanState fs to' =
        .ok ⟨[{ch with worldRooted := true}], true, P.name⟩) ∧
    (∀ (fs : FrameSystem) (to' : PlanState) (inner1 inner2 : List motionChain)
      (ch : motionChain) (l1 l2 l3 : List Frame) (P1 P2 : Frame),
      ((to'.poses.getD []).mapM fun g => motionChainFromGoal fs g.1 g.2.parent) = .ok inner1 →
      ((to'.configuration.getD []).mapM fun g => motionChainFromGoal fs g.1 g.1) = .ok inner2 →
      inner1 ++ inner2 = [ch] →
      ch.frames = l1 ++ P1 :: (l2 ++ P2 :: l3) → P1.kind = .ptg → P2.kind = .ptg →
      (∀ g ∈ l1, g.kind ≠ .ptg) →
      (∀ g ∈ l2, g.kind ≠ .ptg ∧ g.dofCount = 0) →
      motionChainsFromPlanState fs to' = .error .onlyOnePTG) := by
  refine ⟨?_, ?_, ?_⟩
  · intro fs to' inner1 inner2 hm1 hm2 hlen hptg
    have hnl : ¬ (inner1 ++ inner2).length < 1 := by omega
    simp only [motionChainsFromPlanState, hm1, hm2, ok_bind, if_neg hnl]
    rw [ptgScanChains_mixed_of_ptg (inner1 ++ inner2).length hlen
      (inner1 ++ inner2) "" hptg]
    rfl
  · intro fs to' inner1 inner2 ch l1 l2 P hm1 hm2 hone hframes hP h1 h2
    have hnl : ¬ (inner1 ++ inner2).length < 1 := by rw [hone]; simp
    simp only [motionChainsFromPlanState, hm1, hm2, ok_bind, if_neg hnl, hone]
    have hscan := ptgScanFrames_single_success P l1 l2 ch "" hP h1 h2
    rw [← hframes] at hscan
    simp only [ptgScanChains, List.length_singleton, hscan, ok_bind]
    rfl
  · intro fs to' inner1 inner2 ch l1 l2 l3 P1 P2 hm1 hm2 hone hframes hP1 hP2 h1 h2
    have hnl : ¬ (inner1 ++ inner2).length < 1 := by rw [hone]; simp
    simp only [motionChainsFromPlanState, hm1, hm2, ok_bind, if_neg hnl, hone]
    have hscan := ptgScanFrames_two_ptg P1 P2 l1 l2 l3 ch "" hP1 hP2 h1 h2
    rw [← hframes] at hscan
    simp only [ptgScanChains, List.length_singleton, hscan]
    rfl

/-- Witness for the amended C5: the single-PTG fixture (one pose goal on the
sole PTG frame `P`) succeeds with `useTPspace`, `ptgFrameName = "P"` and the
chain forced world-rooted. -/
theorem motionChainsFromPlanState_ptg_rules_witness :
    motionChainsFromPlanState fsPTG goalPTG =
      .ok ⟨[{chainPTG with worldRooted := true}], true, pFrame.name⟩ :=
  motionChainsFromPlanState_ptg_rules.2.1 fsPTG goalPTG [chainPTG] [] chainPTG
    [] [worldFrame] pFrame rfl rfl rfl (by decide) (by decide) (by decide)
    (by decide)

/-! ### Theorems for the geometry partition (C6) -/

/-- One step of `geometries` for a frame inside some chain's moving
subsystem. -/
theorem geometries_cons_moving (mC : motionChains) (fs : FrameSystem)
    (name : String) (gs : List String) (rest : List (String × List String))
    (h : (mC.inner.any fun chain => (chain.movingFS.frame name).isSome) = true) :
    mC.geometries fs ((name, gs) :: rest) =
      (mC.geometries fs rest).map (fun p => (gs ++ p.1, p.2)) := by
  rw [motionChains.geometries, if_pos h]

/-- One step of `geometries` for a chainless frame with nonzero degrees of
freedom. -/
theorem geometries_cons_dof (mC : motionChains) (fs : FrameSystem)
    (name : String) (gs : List String) (rest : List (String × List String))
    (f : Frame)
    (h : (mC.inner.any fun chain => (chain.movingFS.frame name).isSome) = false)
    (hf : fs.frame name = some f) (hd : f.dofCount > 0) :
    mC.geometries fs ((name, gs) :: rest) =
      (mC.geometries fs rest).map (fun p => (gs ++ p.1, p.2)) := by
  simp only [motionChains.geometries, h, hf, if_pos hd]
  rfl

/-- One step of `geometries` for a chainless rigid frame. -/
theorem geometries_cons_static (mC : motionChains) (fs : FrameSystem)
    (name : String) (gs : List String) (rest : List (String × List String))
    (f : Frame)
    (h : (mC.inner.any fun chain => (chain.movingFS.frame name).isSome) = false)
    (hf : fs.frame name = some f) (hd : ¬ f.dofCount > 0) :
    mC.geometries fs ((name, gs) :: rest) =
      (mC.geometries fs rest).map (fun p => (p.1, gs ++ p.2)) := by
  simp only [motionChains.geometries, h, hf, if_neg hd]
  rfl

/-- Claim C6: for every geometry map whose every named frame is either in some
chain's moving subsystem or present in the frame system (the Go code panics
otherwise — modelled as `none`), `geometries` succeeds and produces exactly
the bipartition given by `geometryMoving`: the moving list concatenates, in
input order, the geometries of the frames that belong to some chain's moving
subsystem or have nonzero degrees of freedom, and the static list
concatenates the geometries of all remaining frames — so every frame with
geometry contributes its geometries to exactly one of the two lists. -/
theorem geometries_partition (mC : motionChains) (fs : FrameSystem) :
    ∀ fsg : List (String × List String),
      (∀ e ∈ fsg, (mC.inner.any (fun chain => (chain.movingFS.frame e.1).isSome)) = true ∨
        (fs.frame e.1).isSome = true) →
      mC.geometries fs fsg = some
        ((fsg.filter (fun e => geometryMoving mC fs e.1)).flatMap (·.2),
         (fsg.filter (fun e => !(geometryMoving mC fs e.1))).flatMap (·.2)) := by
  intro fsg
  induction fsg with
  | nil => intro _; rfl
  | cons e rest ih =>
    intro h
    obtain ⟨name, gs⟩ := e
    have hrest := ih (fun e' he' => h e' (List.mem_cons_of_mem _ he'))
    cases hany : (mC.inner.any fun chain => (chain.movingFS.frame name).isSome) with
    | true =>
      have hmov : geometryMoving mC fs name = true := by
        simp [geometryMoving, hany]
      rw [geometries_cons_moving mC fs name gs rest hany, hrest]
      simp [List.filter_cons, List.flatMap_cons, hmov]
    | false =>
      rcases h (name, gs) (List.mem_cons_self _ _) with hc | hframe
      · rw [hany] at hc
        exact absurd hc (by simp)
      · cases hf : fs.frame name with
        | none =>
          rw [hf] at hframe
          simp at hframe
        | some f =>
          by_cases hd : f.dofCount > 0
          · have hmov : geometryMoving mC fs name = true := by
              simp [geometryMoving, hany, hf, hd]
            rw [geometries_cons_dof mC fs name gs rest f hany hf hd, hrest]
            simp [List.filter_cons, List.flatMap_cons, hmov]
          · have hmov : geometryMoving mC fs name = false := by
              simp [geometryMoving, hany, hf, hd]
            rw [geometries_cons_static mC fs name gs rest f hany hf hd, hrest]
            simp [List.filter_cons, List.flatMap_cons, hmov]

/-- Witness for C6 on the sensors fixture with no chains: the moving link and
a rigid sensor split into the moving and static lists respectively. -/
theorem geometries_partition_witness :
    motionChains.geometries ⟨[], false, ""⟩ fsSensors
      [("link", ["geomLink"]), ("s1", ["geomS1"])] = some
      (([("link", ["geomLink"]), ("s1", ["geomS1"])].filter
          (fun e => geometryMoving ⟨[], false, ""⟩ fsSensors e.1)).flatMap (·.2),
       ([("link", ["geomLink"]), ("s1", ["geomS1"])].filter
          (fun e => !(geometryMoving ⟨[], false, ""⟩ fsSensors e.1))).flatMap (·.2)) :=
  geometries_partition ⟨[], false, ""⟩ fsSensors
    [("link", ["geomLink"]), ("s1", ["geomS1"])] (by decide)

/-! ### Theorems for goal translation (C7) -/

/-- The translation loop, characterized: over chains with pairwise distinct
solve-frame names whose needed transforms succeed, the loop succeeds; names
outside the chain list keep their accumulator binding; a chain without a pose
goal contributes nothing; a world-rooted chain's pose goal is rebound to its
transform through the frame system; any other chain's pose goal passes
through unchanged. -/
theorem translateGoalsAux_spec (fs : FrameSystem) (start : FrameSystemInputs)
    (ps : FrameSystemPoses) :
    ∀ (cs : List motionChain) (acc : FrameSystemPoses),
      (cs.map (·.solveFrameName)).Nodup →
      (∀ ch ∈ cs, ch.worldRooted = true →
        ∀ pif, alookup ps ch.solveFrameName = some pif →
          ∃ tf, fs.transform start pif World = .ok tf) →
      ∃ m, translateGoalsAux fs start ps cs acc = .ok m ∧
        (∀ n, n ∉ cs.map (·.solveFrameName) → alookup m n = alookup acc n) ∧
        (∀ ch ∈ cs,
          (alookup ps ch.solveFrameName = none →
            alookup m ch.solveFrameName = alookup acc ch.solveFrameName) ∧
          (∀ pif, alookup ps ch.solveFrameName = some pif →
            (ch.worldRooted = true →
              ∀ tf, fs.transform start pif World = .ok tf →
                alookup m ch.solveFrameName = some tf) ∧
            (ch.worldRooted = false →
              alookup m ch.solveFrameName = some pif))) := by
  intro cs
  induction cs with
  | nil =>
    intro acc _ _
    exact ⟨acc, rfl, fun n _ => rfl, fun ch hch => absurd hch (by simp)⟩
  | cons c rest ih =>
    intro acc hnd htr
    rw [List.map_cons, List.nodup_cons] at hnd
    have hcnot : c.solveFrameName ∉ rest.map (·.solveFrameName) := hnd.1
    have hndr : (rest.map (·.solveFrameName)).Nodup := hnd.2
    have htrr : ∀ ch ∈ rest, ch.worldRooted = true →
        ∀ pif, alookup ps ch.solveFrameName = some pif →
          ∃ tf, fs.transform start pif World = .ok tf :=
      fun ch hch => htr ch (List.mem_cons_of_mem c hch)
    cases hlook : alookup ps c.solveFrameName with
    | none =>
      obtain ⟨m, hm, hout, hch⟩ := ih acc hndr htrr
      refine ⟨m, ?_, ?_, ?_⟩
      · simp only [translateGoalsAux, hlook]
        exact hm
      · intro n hn
        exact hout n (fun hmem => hn (by simp [hmem]))
      · intro ch hchm
        rcases List.mem_cons.mp hchm with rfl | hchr
        · refine ⟨fun _ => hout ch.solveFrameName hcnot, fun pif hpif => ?_⟩
          rw [hlook] at hpif
          exact absurd hpif (by simp)
        · exact hch ch hchr
    | some pif =>
      cases hw : c.worldRooted with
      | true =>
        obtain ⟨tf, htf⟩ := htr c (List.mem_cons_self c rest) hw pif hlook
        obtain ⟨m, hm, hout, hch⟩ :=
          ih (mapInsert acc c.solveFrameName tf) hndr htrr
        refine ⟨m, ?_, ?_, ?_⟩
        · simp only [translateGoalsAux, hlook, hw, if_pos, htf]
          exact hm
        · intro n hn
          have hnr : n ∉ rest.map (·.solveFrameName) := fun hmem => hn (by simp [hmem])
          have hnc : ¬ n = c.solveFrameName := fun hmem => hn (by simp [hmem])
          rw [hout n hnr, alookup_mapInsert, if_neg hnc]
        · intro ch hchm
          rcases List.mem_cons.mp hchm with rfl | hchr
          · constructor
            · intro hnone
              rw [hlook] at hnone
              exact absurd hnone (by simp)
            · intro pif' hpif'
              rw [hlook] at hpif'
              have hpe : pif = pif' := by simpa using hpif'
              constructor
              · intro _ tf' htf'
                rw [← hpe, htf] at htf'
                have : tf = tf' := by simpa using htf'
                rw [hout ch.solveFrameName hcnot, alookup_mapInsert, if_pos rfl, this]
              · intro hfalse
                rw [hw] at hfalse
                exact absurd hfalse (by simp)
          · have hne : ¬ ch.solveFrameName = c.solveFrameName := fun he =>
              hcnot (he ▸ List.mem_map_of_mem _ hchr)
            refine ⟨fun hnone => ?_, (hch ch hchr).2⟩
            rw [(hch ch hchr).1 hnone, alookup_mapInsert, if_neg hne]
      | false =>
        obtain ⟨m, hm, hout, hch⟩ :=
          ih (mapInsert acc c.solveFrameName pif) hndr htrr
        refine ⟨m, ?_, ?_, ?_⟩
        · simp only [translateGoalsAux, hlook, hw]
          exact hm
        · intro n hn
          have hnr : n ∉ rest.map (·.solveFrameName) := fun hmem => hn (by simp [hmem])
          have hnc : ¬ n = c.solveFrameName := fun hmem => hn (by simp [hmem])
          rw [hout n hnr, alookup_mapInsert, if_neg hnc]
        · intro ch hchm
          rcases List.mem_cons.mp hchm with rfl | hchr
          · constructor
            · intro hnone
              rw [hlook] at hnone
              exact absurd hnone (by simp)
            · intro pif' hpif'
              rw [hlook] at hpif'
              have hpe : pif = pif' := by simpa using hpif'
              constructor
              · intro htrue
                rw [hw] at htrue
                exact absurd htrue (by simp)
              · intro _
                rw [hout ch.solveFrameName hcnot, alookup_mapInsert, if_pos rfl, hpe]
          · have hne : ¬ ch.solveFrameName = c.solveFrameName := fun he =>
              hcnot (he ▸ List.mem_map_of_mem _ hchr)
            refine ⟨fun hnone => ?_, (hch ch hchr).2⟩
            rw [(hch ch hchr).1 hnone, alookup_mapInsert, if_neg hne]

/-- Claim C7: `translateGoalsToWorldPosition` returns a new goal specification
in which, for each world-rooted chain with a pose goal, the target pose is
rebound to the pose produced by the frame system's transform function at the
start configuration relative to World, while pose goals of non-world-rooted
chains pass through unchanged; the configuration goals are passed through as
given; and the result is a fresh specification (the embedding is pure, and the
Go code writes only into the freshly allocated `alteredGoals` map). -/
theorem translateGoalsToWorldPosition_spec (mC : motionChains)
    (fs : FrameSystem) (start : FrameSystemInputs) (goal : PlanState)
    (ps : FrameSystemPoses)
    (hps : goal.poses = some ps)
    (hnd : (mC.inner.map (·.solveFrameName)).Nodup)
    (htr : ∀ ch ∈ mC.inner, ch.worldRooted = true →
      ∀ pif, alookup ps ch.solveFrameName = some pif →
        ∃ tf, fs.transform start pif World = .ok tf) :
    ∃ altered, mC.translateGoalsToWorldPosition fs start goal =
      .ok ⟨some altered, goal.configuration⟩ ∧
      ∀ ch ∈ mC.inner,
        (alookup ps ch.solveFrameName = none →
          alookup altered ch.solveFrameName = none) ∧
        (∀ pif, alookup ps ch.solveFrameName = some pif →
          (ch.worldRooted = true →
            ∀ tf, fs.transform start pif World = .ok tf →
              alookup altered ch.solveFrameName = some tf) ∧
          (ch.worldRooted = false →
            alookup altered ch.solveFrameName = some pif)) := by
  obtain ⟨m, hm, hout, hch⟩ := translateGoalsAux_spec fs start ps mC.inner [] hnd htr
  refine ⟨m, ?_, ?_⟩
  · simp only [motionChains.translateGoalsToWorldPosition, hps, hm, ok_bind]
  · intro ch hchm
    refine ⟨fun hnone => ?_, (hch ch hchm).2⟩
    rw [(hch ch hchm).1 hnone]
    rfl

/-- Witness for C7: the world-rooted `s1`-to-`s2` chain with a pose goal on
`s1` stated in the link frame; the goal is rebound through the fixture
transform. -/
theorem translateGoalsToWorldPosition_spec_witness :
    ∃ altered,
      motionChains.translateGoalsToWorldPosition ⟨[chainS1S2], false, ""⟩ fsTr []
        ⟨some [("s1", ⟨"link", ⟨1, 2, 3⟩⟩)], none⟩ =
        .ok ⟨some altered, none⟩ ∧
      ∀ ch ∈ [chainS1S2],
        (alookup [("s1", (⟨"link", ⟨1, 2, 3⟩⟩ : PoseInFrame))] ch.solveFrameName = none →
          alookup altered ch.solveFrameName = none) ∧
        (∀ pif, alookup [("s1", (⟨"link", ⟨1, 2, 3⟩⟩ : PoseInFrame))] ch.solveFrameName = some pif →
          (ch.worldRooted = true →
            ∀ tf, fsTr.transform [] pif World = .ok tf →
              alookup altered ch.solveFrameName = some tf) ∧
          (ch.worldRooted = false →
            alookup altered ch.solveFrameName = some pif)) :=
  translateGoalsToWorldPosition_spec ⟨[chainS1S2], false, ""⟩ fsTr []
    ⟨some [("s1", ⟨"link", ⟨1, 2, 3⟩⟩)], none⟩
    [("s1", ⟨"link", ⟨1, 2, 3⟩⟩)] rfl (by decide)
    (fun ch _ _ pif _ => ⟨⟨World, pif.pose⟩, rfl⟩)

end RDK
